import Mathlib

/-!
Shallow embedding of the session lifecycle manager of `mcp-catalogue`
(`src/session-manager` as given in the repository sources, together with the
session HTTP wrapper).  The persisted Registry is a JSON file mapping provider
names to `{port, pid, startedAt}` records; the manager re-reads that file on
every operation, so the whole observable state of the manager is the file
content, modelled as `Option String` (`none` = the backing file is missing or
unreadable, `some s` = the file holds the text `s`).

External effects (process spawning, signal delivery, the wall clock and
`Date` parsing) are passed in as explicit oracle arguments, mirroring exactly
where the TypeScript code consults them.
-/

namespace MCPCatalogue

/-! ## Data model (`types.ts`)

`SessionFileEntry` is the persisted Session Record: integer `port`, integer
`pid`, ISO-8601 `startedAt` string.  `SessionsFile` is the JSON object keyed
by provider name; a JavaScript object is an insertion-ordered map with unique
keys, embedded as an association list (key uniqueness is proved where needed,
it is an invariant of every value `JSON.parse` can produce). -/

structure SessionFileEntry where
  port : Nat
  pid : Nat
  startedAt : String
deriving DecidableEq, Repr

abbrev SessionsFile := List (String × SessionFileEntry)

/-- `sessions[serverName]` (property read; `undefined` becomes `none`). -/
def lookupSession (sessions : SessionsFile) (name : String) : Option SessionFileEntry :=
  match sessions with
  | [] => none
  | (k, v) :: rest => if k = name then some v else lookupSession rest name

/-- `sessions[serverName] = entry`: a JavaScript property write updates an
existing key in place (keeping its position) and appends a new key. -/
def setSession (sessions : SessionsFile) (name : String) (e : SessionFileEntry) :
    SessionsFile :=
  match sessions with
  | [] => [(name, e)]
  | (k, v) :: rest =>
    if k = name then (k, e) :: rest else (k, v) :: setSession rest name e

/-- `delete sessions[serverName]`.  On the key-unique lists JavaScript objects
denote, removing every pair with the key equals removing the single one. -/
def deleteSession (sessions : SessionsFile) (name : String) : SessionsFile :=
  sessions.filter (fun kv => kv.1 ≠ name)

/-- Keys present in an association list. -/
def sessionKeys (m : SessionsFile) : List String := m.map Prod.fst

/-! ## JSON text of the Registry file

`saveSessionsToFile` writes `JSON.stringify(sessions, null, 2)` and
`loadSessionsFromFile` reads the text back with `JSON.parse(content) as
SessionsFile`.  Both are embedded executably over `List Char`: the
serializer reproduces `JSON.stringify`'s exact 2-space-indented output
(including its string escaping), and the parser is `JSON.parse` restricted to
the `SessionsFile` shape that the TypeScript cast asserts (an object of
records with the three fields in the serializer's key order); any other
content is a parse failure, which the manager's `catch` turns into the empty
registry. -/

/-- The character `{` (written via its code point). -/
def lbrace : Char := Char.ofNat 123

/-- The character `}` (written via its code point). -/
def rbrace : Char := Char.ofNat 125

/-- The newline character. -/
def nl : Char := Char.ofNat 10

/-- Lower-case hexadecimal digit for a value below 16. -/
def hexDigit (d : Nat) : Char :=
  if d < 10 then Char.ofNat (48 + d) else Char.ofNat (87 + d)

/-- `JSON.stringify`'s escaping of one character inside a string literal:
quote and backslash get a backslash escape, the named control characters get
their short escapes, the remaining control characters below U+0020 get
`\u00xx`, and everything else is emitted verbatim. -/
def escapeChar (c : Char) : List Char :=
  if c = '\"' then ['\\', '\"']
  else if c = '\\' then ['\\', '\\']
  else if c = Char.ofNat 8 then ['\\', 'b']
  else if c = '\t' then ['\\', 't']
  else if c = nl then ['\\', 'n']
  else if c = Char.ofNat 12 then ['\\', 'f']
  else if c = Char.ofNat 13 then ['\\', 'r']
  else if c.toNat < 32 then
    ['\\', 'u', '0', '0', hexDigit (c.toNat / 16), hexDigit (c.toNat % 16)]
  else [c]

/-- A JSON string literal: quote, escaped characters, quote. -/
def encodeString (s : List Char) : List Char :=
  '\"' :: s.flatMap escapeChar ++ ['\"']

/-- The decimal digit character for a value below 10. -/
def digitChar (d : Nat) : Char := Char.ofNat (48 + d)

/-- Decimal digits of `n`, most significant first (fuel-driven so that the
definition is structural and kernel-reducible; `encodeNat` supplies enough
fuel). -/
def natDigitsAux : Nat → Nat → List Char
  | 0, _ => []
  | fuel + 1, n =>
    if n < 10 then [digitChar n]
    else natDigitsAux fuel (n / 10) ++ [digitChar (n % 10)]

/-- `JSON.stringify` of a non-negative integer: its decimal digits. -/
def encodeNat (n : Nat) : List Char := natDigitsAux (n + 1) n

/-- One record value as `JSON.stringify(sessions, null, 2)` nests it: an
object at indent 4 with the fields `port`, `pid`, `startedAt`. -/
def encodeEntryVal (e : SessionFileEntry) : List Char :=
  [lbrace, nl]
  ++ [' ', ' ', ' ', ' '] ++ encodeString "port".data ++ [':', ' ']
    ++ encodeNat e.port ++ [',', nl]
  ++ [' ', ' ', ' ', ' '] ++ encodeString "pid".data ++ [':', ' ']
    ++ encodeNat e.pid ++ [',', nl]
  ++ [' ', ' ', ' ', ' '] ++ encodeString "startedAt".data ++ [':', ' ']
    ++ encodeString e.startedAt.data ++ [nl]
  ++ [' ', ' ', rbrace]

/-- One `"name": {...}` member line at indent 2. -/
def encodeEntry (k : String) (e : SessionFileEntry) : List Char :=
  [' ', ' '] ++ encodeString k.data ++ [':', ' '] ++ encodeEntryVal e

/-- The member list, separated by `,\n` as `JSON.stringify` emits it. -/
def encodeEntries : SessionsFile → List Char
  | [] => []
  | [kv] => encodeEntry kv.1 kv.2
  | kv :: rest => encodeEntry kv.1 kv.2 ++ [',', nl] ++ encodeEntries rest

/-- `JSON.stringify(sessions, null, 2)`. -/
def stringifySessions (m : SessionsFile) : List Char :=
  match m with
  | [] => [lbrace, rbrace]
  | _ => [lbrace, nl] ++ encodeEntries m ++ [nl, rbrace]

/-! ### The parser (`JSON.parse` on the Registry's grammar) -/

/-- JSON whitespace. -/
def isWsChar (c : Char) : Bool :=
  c = ' ' || c = nl || c = '\t' || c = Char.ofNat 13

/-- Drop leading JSON whitespace. -/
def skipWs : List Char → List Char
  | [] => []
  | c :: cs => if isWsChar c then skipWs cs else c :: cs

/-- Value of a hexadecimal digit character. -/
def hexVal (c : Char) : Option Nat :=
  if 48 ≤ c.toNat ∧ c.toNat ≤ 57 then some (c.toNat - 48)
  else if 97 ≤ c.toNat ∧ c.toNat ≤ 102 then some (c.toNat - 87)
  else if 65 ≤ c.toNat ∧ c.toNat ≤ 70 then some (c.toNat - 55)
  else none

/-- The single-character string escapes JSON accepts. -/
def simpleUnescape (c : Char) : Option Char :=
  if c = '\"' then some '\"'
  else if c = '\\' then some '\\'
  else if c = '/' then some '/'
  else if c = 'b' then some (Char.ofNat 8)
  else if c = 'f' then some (Char.ofNat 12)
  else if c = 'n' then some nl
  else if c = 'r' then some (Char.ofNat 13)
  else if c = 't' then some '\t'
  else none

/-- Parse the body of a string literal (after the opening quote) up to and
including the closing quote, resolving escapes; returns the decoded
characters and the unconsumed tail. -/
def parseStringBody : List Char → Option (List Char × List Char)
  | [] => none
  | c :: rest =>
    if c = '\"' then some ([], rest)
    else if c = '\\' then
      match rest with
      | [] => none
      | e :: rest1 =>
        if e = 'u' then
          match rest1 with
          | a :: b :: c2 :: d :: rest2 =>
            match hexVal a, hexVal b, hexVal c2, hexVal d with
            | some ha, some hb, some hc, some hd =>
              (parseStringBody rest2).map fun p =>
                (Char.ofNat (((ha * 16 + hb) * 16 + hc) * 16 + hd) :: p.1, p.2)
            | _, _, _, _ => none
          | _ => none
        else
          match simpleUnescape e with
          | some c2 => (parseStringBody rest1).map fun p => (c2 :: p.1, p.2)
          | none => none
    else (parseStringBody rest).map fun p => (c :: p.1, p.2)

/-- Whether a character is a decimal digit. -/
def isDigitChar (c : Char) : Bool := 48 ≤ c.toNat && c.toNat ≤ 57

/-- Split off the maximal leading run of decimal digits. -/
def takeDigits : List Char → List Char × List Char
  | [] => ([], [])
  | c :: cs =>
    if isDigitChar c then
      let p := takeDigits cs
      (c :: p.1, p.2)
    else ([], c :: cs)

/-- Numeric value of a digit character. -/
def digitVal (c : Char) : Nat := c.toNat - 48

/-- Fold a digit run into the number it denotes. -/
def digitsToNat (acc : Nat) : List Char → Nat
  | [] => acc
  | c :: cs => digitsToNat (acc * 10 + digitVal c) cs

/-- Parse a non-negative decimal number token (leading whitespace allowed). -/
def parseNatTok (cs : List Char) : Option (Nat × List Char) :=
  match takeDigits (skipWs cs) with
  | ([], _) => none
  | (ds, rest) => some (digitsToNat 0 ds, rest)

/-- Parse a string token (leading whitespace allowed). -/
def parseStringTok (cs : List Char) : Option (List Char × List Char) :=
  match skipWs cs with
  | [] => none
  | c :: rest => if c = '\"' then parseStringBody rest else none

/-- Require the next non-whitespace character to be `c` and consume it. -/
def expectChar (c : Char) (cs : List Char) : Option (List Char) :=
  match skipWs cs with
  | [] => none
  | c2 :: rest => if c2 = c then some rest else none

/-- Parse the fixed member key `key` followed by its colon. -/
def parseField (key : List Char) (cs : List Char) : Option (List Char) :=
  match parseStringTok cs with
  | none => none
  | some (k, rest) => if k = key then expectChar ':' rest else none

/-- Parse one record value: `{"port": n, "pid": n, "startedAt": "s"}`. -/
def parseEntryVal (cs : List Char) : Option (SessionFileEntry × List Char) := do
  let cs1 ← expectChar lbrace cs
  let cs2 ← parseField "port".data cs1
  let (port, cs3) ← parseNatTok cs2
  let cs4 ← expectChar ',' cs3
  let cs5 ← parseField "pid".data cs4
  let (pid, cs6) ← parseNatTok cs5
  let cs7 ← expectChar ',' cs6
  let cs8 ← parseField "startedAt".data cs7
  let (sa, cs9) ← parseStringTok cs8
  let cs10 ← expectChar rbrace cs9
  pure (⟨port, pid, String.mk sa⟩, cs10)

/-- Parse one `"name": value` member. -/
def parseEntry (cs : List Char) : Option ((String × SessionFileEntry) × List Char) := do
  let (k, cs1) ← parseStringTok cs
  let cs2 ← expectChar ':' cs1
  let (v, cs3) ← parseEntryVal cs2
  pure ((String.mk k, v), cs3)

/-- Insert parsed members left to right (`JSON.parse`'s duplicate-key
behaviour: a later member overwrites an earlier one in place). -/
def insertAll (acc : SessionsFile) : SessionsFile → SessionsFile
  | [] => acc
  | (k, v) :: rest => insertAll (setSession acc k v) rest

/-- Parse the member list after the opening brace of a non-empty object;
fuel-driven (each member consumes at least one character). -/
def parseEntriesAux : Nat → SessionsFile → List Char → Option (SessionsFile × List Char)
  | 0, _, _ => none
  | fuel + 1, acc, cs =>
    match parseEntry cs with
    | none => none
    | some ((k, v), cs1) =>
      match skipWs cs1 with
      | [] => none
      | c :: rest =>
        if c = ',' then parseEntriesAux fuel (setSession acc k v) rest
        else if c = rbrace then some (setSession acc k v, rest)
        else none

/-- `JSON.parse(content) as SessionsFile`: the whole text must be one object
of session records, with nothing but whitespace after it. -/
def parseSessions (cs : List Char) : Option SessionsFile :=
  match expectChar lbrace cs with
  | none => none
  | some cs1 =>
    match skipWs cs1 with
    | [] => none
    | c :: rest =>
      if c = rbrace then if skipWs rest = [] then some [] else none
      else
        match parseEntriesAux (cs.length + 1) [] cs1 with
        | none => none
        | some (m, rest1) => if skipWs rest1 = [] then some m else none

/-! ## The session manager (`session-manager.ts`)

The manager is stateless between operations: every operation begins by
re-reading the sessions file.  The file system is threaded explicitly as
`Option String`; external effects are oracle arguments:

* `spawn` — the outcome of the one `spawn(...)` call `start` makes (the call
  throwing, returning a child with no `pid`, or yielding a pid);
* `kill` — what `process.kill(pid, 'SIGTERM')` does for a given pid
  (delivered; `ESRCH`, the process does not exist; or any other error);
* `getTime`/`now` — `new Date(s).getTime()` and `Date.now()` in milliseconds.

Each operation returns its result (`Except` models a thrown exception)
together with the file state after the operation; on every thrown path the
file is returned unchanged, exactly as in the source, where the throw happens
before any write. -/

/-- `servers.json` configuration for one provider (`types.ts`); `start` only
forwards it to the spawned worker via the environment, so no operation here
inspects it. -/
structure MCPServerConfig where
  command : String
  args : List String
  env : List (String × String)
  transport : Option String

/-- Port allocation pool for sessions. -/
def PORT_POOL : List Nat := [3978, 3979, 3980, 3981, 3982]

/-- `loadSessionsFromFile`: read and `JSON.parse` the sessions file; any read
or parse failure is caught and becomes the empty registry. -/
def loadSessionsFromFile : Option String → SessionsFile
  | none => []
  | some content =>
    match parseSessions content.data with
    | some sessions => sessions
    | none => []

/-- `saveSessionsToFile`: overwrite the file with
`JSON.stringify(sessions, null, 2)` (a write error is caught and only
logged, so the operation itself never fails). -/
def saveSessionsToFile (sessions : SessionsFile) : Option String :=
  some (String.mk (stringifySessions sessions))

/-- `addSessionToFile`: full read-modify-write upsert of one key. -/
def addSessionToFile (file : Option String) (serverName : String)
    (entry : SessionFileEntry) : Option String :=
  saveSessionsToFile (setSession (loadSessionsFromFile file) serverName entry)

/-- `removeSessionFromFile`: full read-modify-write removal of one key. -/
def removeSessionFromFile (file : Option String) (serverName : String) : Option String :=
  saveSessionsToFile (deleteSession (loadSessionsFromFile file) serverName)

/-- The error message `allocatePort` throws on an exhausted pool. -/
def noPortsMsg : String := "No available ports in pool. Stop a session first."

/-- `allocatePort`: scan `PORT_POOL` in order and return the first port not
recorded as `port` by any existing session; throw when every pool entry is in
use. -/
def allocatePort (existingSessions : SessionsFile) : Except String Nat :=
  match PORT_POOL.find? (fun port => !(existingSessions.any fun s => s.2.port == port)) with
  | some port => Except.ok port
  | none => Except.error noPortsMsg

/-- Outcome of the `spawn` call in `start`: a child with a pid, a child whose
`pid` is undefined, or the spawn call throwing. -/
inductive SpawnOutcome where
  | ok (pid : Nat)
  | noPid
  | threw (msg : String)

/-- The message of the error `start` throws when the spawned child has no pid. -/
def spawnFailedMsg : String := "Failed to spawn session worker process"

/-- How `start`'s catch block wraps an error thrown inside its try block. -/
def startFailMsg (serverName msg : String) : String :=
  "Failed to start session '" ++ serverName ++ "': " ++ msg

/-- The address `start` returns: `http://localhost:{port}`. -/
def mkAddress (port : Nat) : String := "http://localhost:" ++ Nat.repr port

/-- `start(serverName, config)`: short-circuit on an existing registry entry;
otherwise allocate a port (outside the try block, so an allocation error
propagates unwrapped), spawn the worker, and on success write the new record
and return the local address. -/
def start (file : Option String) (serverName : String) (_config : MCPServerConfig)
    (spawn : SpawnOutcome) (now : String) : Except String String × Option String :=
  let sessions := loadSessionsFromFile file
  match lookupSession sessions serverName with
  | some entry => (Except.ok (mkAddress entry.port), file)
  | none =>
    match allocatePort sessions with
    | Except.error msg => (Except.error msg, file)
    | Except.ok port =>
      match spawn with
      | SpawnOutcome.threw msg => (Except.error (startFailMsg serverName msg), file)
      | SpawnOutcome.noPid => (Except.error (startFailMsg serverName spawnFailedMsg), file)
      | SpawnOutcome.ok pid =>
        (Except.ok (mkAddress port), addSessionToFile file serverName ⟨port, pid, now⟩)

/-- Outcome of `process.kill(pid, 'SIGTERM')`: delivered, `ESRCH` (no such
process), or any other failure with its message. -/
inductive KillResult where
  | delivered
  | esrch
  | failed (msg : String)

/-- The error `stop` throws when no registry entry exists. -/
def notFoundMsg (serverName : String) : String :=
  "No active session found for '" ++ serverName ++ "'"

/-- How `stop` wraps a signal-delivery failure other than `ESRCH`. -/
def stopFailMsg (serverName msg : String) : String :=
  "Failed to stop session '" ++ serverName ++ "': " ++ msg

/-- `getSessionFromFile`: registry lookup (`sessions[serverName] || null`). -/
def getSessionFromFile (file : Option String) (serverName : String) :
    Option SessionFileEntry :=
  lookupSession (loadSessionsFromFile file) serverName

/-- `stop(serverName)`: `NotFound` when no entry exists; send `SIGTERM` to the
recorded pid; `ESRCH` is logged and treated as success; any other
signal-delivery failure is rethrown before the registry is touched; on the
success paths the entry is removed. -/
def stop (file : Option String) (serverName : String) (kill : Nat → KillResult) :
    Except String Unit × Option String :=
  match getSessionFromFile file serverName with
  | none => (Except.error (notFoundMsg serverName), file)
  | some sessionInfo =>
    match kill sessionInfo.pid with
    | KillResult.failed msg => (Except.error (stopFailMsg serverName msg), file)
    | _ => (Except.ok (), removeSessionFromFile file serverName)

/-- One row of `list()`'s output. -/
structure SessionListing where
  serverName : String
  port : Nat
  uptime : String
  pid : Nat
deriving DecidableEq, Repr

/-- `list()`'s uptime rendering: `Math.floor` millisecond-to-second and
second-to-minute decomposition (`Int.fdiv` is floor division, as `Math.floor`
of a true-ratio division; `Int.tmod` is JavaScript's `%`). -/
def formatUptime (uptimeMs : Int) : String :=
  let uptimeSec := Int.fdiv uptimeMs 1000
  let uptimeMin := Int.fdiv uptimeSec 60
  if uptimeMin > 0 then
    Int.repr uptimeMin ++ "m " ++ Int.repr (Int.tmod uptimeSec 60) ++ "s"
  else Int.repr uptimeSec ++ "s"

/-- `list()`: map every registry entry to a listing row with its uptime
computed from `Date.now() - new Date(startedAt).getTime()`. -/
def list (file : Option String) (getTime : String → Int) (now : Int) :
    List SessionListing :=
  (loadSessionsFromFile file).map fun kv =>
    { serverName := kv.1, port := kv.2.port, pid := kv.2.pid,
      uptime := formatUptime (now - getTime kv.2.startedAt) }

/-- The loop of `stopAll` over the keys read at entry: `stop` each name,
catching a failure (recorded as the logged pair of the name and the error
message) and continuing with the rest. -/
def stopAllGo (kill : Nat → KillResult) :
    List String → Option String → Option String × List (String × String)
  | [], file => (file, [])
  | serverName :: names, file =>
    match stop file serverName kill with
    | (Except.ok _, file2) => stopAllGo kill names file2
    | (Except.error e, file2) =>
      let r := stopAllGo kill names file2
      (r.1, (serverName, e) :: r.2)

/-- `stopAll()`: enumerate the registry once, then stop every name
independently, isolating per-provider failures. -/
def stopAll (file : Option String) (kill : Nat → KillResult) :
    Option String × List (String × String) :=
  stopAllGo kill (sessionKeys (loadSessionsFromFile file)) file

/-- One public manager operation as a relation on file states (the result is
discarded; every error path leaves the file unchanged by construction). -/
inductive ManagerStep : Option String → Option String → Prop where
  | startStep (file : Option String) (serverName : String) (config : MCPServerConfig)
      (spawn : SpawnOutcome) (now : String) :
      ManagerStep file (start file serverName config spawn now).2
  | stopStep (file : Option String) (serverName : String) (kill : Nat → KillResult) :
      ManagerStep file (stop file serverName kill).2
  | stopAllStep (file : Option String) (kill : Nat → KillResult) :
      ManagerStep file (stopAll file kill).1

/-- No two session records share a port. -/
def portsUnique (m : SessionsFile) : Prop := (m.map fun kv => kv.2.port).Nodup

/-! ## The session HTTP wrapper (`session-http-wrapper.ts`)

`createSessionHTTPWrapper`'s `POST /tool/:toolName` handler, as a pure
function of the oracle for `mcpClient.callTool` (which either resolves with a
result or rejects with an error message — the handler stringifies the error
exactly as `error instanceof Error ? error.message : String(error)` does). -/

/-- The JSON envelope and HTTP status the tool endpoint responds with. -/
structure ToolCallResponse (R : Type) where
  status : Nat
  success : Bool
  result : Option R
  error : Option String

/-- The `POST /tool/:toolName` handler: `req.body || {}` for the arguments,
then `callTool`; a resolved call yields `200 {success: true, result}`, a
rejected one `500 {success: false, error: message}` — the catch block
converts every failure into the envelope instead of rethrowing. -/
def toolCallRoute {P R : Type} (emptyParams : P)
    (callTool : String → P → Except String R)
    (toolName : String) (body : Option P) : ToolCallResponse R :=
  let params := body.getD emptyParams
  match callTool toolName params with
  | Except.ok result =>
    { status := 200, success := true, result := some result, error := none }
  | Except.error msg =>
    { status := 500, success := false, result := none, error := some msg }

/-- Whether `needle` occurs as a contiguous substring of `haystack` (used to
state whether an error message mentions a provider name). -/
def listContainsAux (needle : List Char) : List Char → Bool
  | [] => needle.isEmpty
  | c :: rest => needle.isPrefixOf (c :: rest) || listContainsAux needle rest

/-- String-level wrapper of `listContainsAux`. -/
def containsSubstring (needle haystack : String) : Bool :=
  listContainsAux needle.data haystack.data

/-! ## Character-level facts -/

theorem toNat_ofNat_of_lt {n : Nat} (h : n < 55296) : (Char.ofNat n).toNat = n := by
  unfold Char.ofNat
  split
  · rfl
  · rename_i hv
    exact absurd (Or.inl h) hv

theorem digitVal_digitChar {d : Nat} (h : d < 10) : digitVal (digitChar d) = d := by
  unfold digitVal digitChar
  rw [toNat_ofNat_of_lt (by omega)]
  omega

theorem isDigitChar_digitChar {d : Nat} (h : d < 10) : isDigitChar (digitChar d) = true := by
  unfold isDigitChar digitChar
  rw [toNat_ofNat_of_lt (by omega)]
  simp
  omega

theorem hexVal_hexDigit {d : Nat} (h : d < 16) : hexVal (hexDigit d) = some d := by
  unfold hexVal hexDigit
  by_cases h10 : d < 10
  · rw [if_pos h10, toNat_ofNat_of_lt (by omega), if_pos (by omega)]
    simp
  · rw [if_neg h10, toNat_ofNat_of_lt (by omega), if_neg (by omega), if_pos (by omega)]
    simp

theorem char_eq_iff_toNat {c d : Char} : c = d ↔ c.toNat = d.toNat := by
  constructor
  · intro h; rw [h]
  · intro h
    exact Char.ext (UInt32.ext h)

theorem isWsChar_eq_false_of_digit {c : Char} (h : isDigitChar c = true) :
    isWsChar c = false := by
  unfold isDigitChar at h
  simp at h
  unfold isWsChar
  have h32 : (' ' : Char).toNat = 32 := rfl
  have h10 : nl.toNat = 10 := rfl
  have h9 : ('\t' : Char).toNat = 9 := rfl
  have h13 : (Char.ofNat 13).toNat = 13 := rfl
  simp only [char_eq_iff_toNat, h32, h10, h9, h13]
  simp only [Bool.or_eq_false_iff, decide_eq_false_iff_not]
  refine ⟨⟨⟨by omega, by omega⟩, by omega⟩, by omega⟩

/-! ## `skipWs` -/

theorem skipWs_append_ws {ws : List Char} (cs : List Char)
    (h : ∀ c ∈ ws, isWsChar c = true) : skipWs (ws ++ cs) = skipWs cs := by
  induction ws with
  | nil => rfl
  | cons c rest ih =>
    have hc := h c (by simp)
    simp only [List.cons_append, skipWs, hc, if_pos]
    exact ih fun c hc => h c (by simp [hc])

theorem skipWs_cons_not_ws (c : Char) (cs : List Char) (h : isWsChar c = false) :
    skipWs (c :: cs) = c :: cs := by
  simp only [skipWs, h]
  simp

/-! ## Decimal digits round-trip -/

theorem digitsToNat_cons (acc : Nat) (c : Char) (cs : List Char) :
    digitsToNat acc (c :: cs) = digitsToNat (acc * 10 + digitVal c) cs := rfl

theorem digitsToNat_append (xs ys : List Char) (acc : Nat) :
    digitsToNat acc (xs ++ ys) = digitsToNat (digitsToNat acc xs) ys := by
  induction xs generalizing acc with
  | nil => rfl
  | cons c rest ih => rw [List.cons_append, digitsToNat_cons, digitsToNat_cons, ih]

theorem natDigitsAux_ne_nil {fuel n : Nat} (h : 0 < fuel) : natDigitsAux fuel n ≠ [] := by
  match fuel, h with
  | fuel + 1, _ =>
    simp only [natDigitsAux]
    split <;> simp

theorem natDigitsAux_all_digits {fuel n : Nat} :
    ∀ c ∈ natDigitsAux fuel n, isDigitChar c = true := by
  induction fuel generalizing n with
  | zero => intro c hc; simp [natDigitsAux] at hc
  | succ fuel ih =>
    intro c hc
    unfold natDigitsAux at hc
    split at hc
    · rename_i hn
      simp at hc
      rw [hc]
      exact isDigitChar_digitChar hn
    · simp at hc
      rcases hc with hc | hc
      · exact ih c hc
      · rw [hc]
        exact isDigitChar_digitChar (Nat.mod_lt _ (by omega))

theorem digitsToNat_natDigitsAux {fuel : Nat} :
    ∀ n acc, n < fuel →
      digitsToNat acc (natDigitsAux fuel n) =
        acc * 10 ^ (natDigitsAux fuel n).length + n := by
  induction fuel with
  | zero => intro n acc h; omega
  | succ fuel ih =>
    intro n acc h
    unfold natDigitsAux
    split
    · rename_i hn
      rw [digitsToNat_cons, digitVal_digitChar hn]
      show acc * 10 + n = _
      simp
    · rename_i hn
      have hdiv : n / 10 < n := Nat.div_lt_self (by omega) (by omega)
      rw [digitsToNat_append, ih (n / 10) acc (by omega), digitsToNat_cons,
        digitVal_digitChar (Nat.mod_lt n (by omega))]
      show (acc * 10 ^ (natDigitsAux fuel (n / 10)).length + n / 10) * 10 + n % 10 = _
      simp [List.length_append, Nat.pow_succ]
      have hdm : 10 * (n / 10) + n % 10 = n := Nat.div_add_mod n 10
      ring_nf
      omega

theorem digitsToNat_encodeNat (n : Nat) : digitsToNat 0 (encodeNat n) = n := by
  unfold encodeNat
  rw [digitsToNat_natDigitsAux n 0 (by omega)]
  simp

theorem encodeNat_ne_nil (n : Nat) : encodeNat n ≠ [] :=
  natDigitsAux_ne_nil (by omega)

theorem encodeNat_all_digits (n : Nat) : ∀ c ∈ encodeNat n, isDigitChar c = true :=
  natDigitsAux_all_digits

/-! ## `takeDigits` -/

theorem takeDigits_append (ds rest : List Char)
    (hd : ∀ c ∈ ds, isDigitChar c = true)
    (hr : ∀ c ∈ rest.head?, isDigitChar c = false) :
    takeDigits (ds ++ rest) = (ds, rest) := by
  induction ds with
  | nil =>
    simp only [List.nil_append]
    match rest with
    | [] => rfl
    | c :: cs =>
      have := hr c (by simp)
      simp [takeDigits, this]
  | cons c cs ih =>
    have hc := hd c (by simp)
    simp only [List.cons_append, takeDigits, hc, if_pos, List.append_eq]
    rw [ih fun c hc => hd c (by simp [hc])]

/-! ## String-literal round-trip -/

theorem psb_quote (rest : List Char) : parseStringBody ('\"' :: rest) = some ([], rest) := by
  rw [parseStringBody.eq_def]
  simp

theorem psb_plain {c : Char} (h1 : c ≠ '\"') (h2 : c ≠ '\\') (rest : List Char) :
    parseStringBody (c :: rest) = (parseStringBody rest).map fun p => (c :: p.1, p.2) := by
  rw [parseStringBody.eq_def]
  simp [if_neg h1, if_neg h2]

theorem psb_backslash {e c2 : Char} (he : e ≠ 'u') (hu : simpleUnescape e = some c2)
    (rest : List Char) :
    parseStringBody ('\\' :: e :: rest) =
      (parseStringBody rest).map fun p => (c2 :: p.1, p.2) := by
  rw [parseStringBody.eq_def]
  simp [if_neg he, hu]

theorem psb_u {a b c2 d : Char} {va vb vc vd : Nat}
    (ha : hexVal a = some va) (hb : hexVal b = some vb)
    (hc : hexVal c2 = some vc) (hd : hexVal d = some vd) (rest : List Char) :
    parseStringBody ('\\' :: 'u' :: a :: b :: c2 :: d :: rest) =
      (parseStringBody rest).map fun p =>
        (Char.ofNat (((va * 16 + vb) * 16 + vc) * 16 + vd) :: p.1, p.2) := by
  rw [parseStringBody.eq_def]
  simp [ha, hb, hc, hd]

theorem parseStringBody_encode (s rest : List Char) :
    parseStringBody (s.flatMap escapeChar ++ '\"' :: rest) = some (s, rest) := by
  induction s with
  | nil =>
    rw [List.flatMap_nil, List.nil_append, psb_quote]
  | cons c cs ih =>
    rw [List.flatMap_cons, List.append_assoc]
    by_cases h1 : c = '\"'
    · subst h1
      show parseStringBody ('\\' :: '\"' :: _) = _
      rw [psb_backslash (by decide) (show simpleUnescape '\"' = some '\"' by decide)]
      simp [ih]
    by_cases h2 : c = '\\'
    · subst h2
      show parseStringBody ('\\' :: '\\' :: _) = _
      rw [psb_backslash (by decide) (show simpleUnescape '\\' = some '\\' by decide)]
      simp [ih]
    by_cases h3 : c = Char.ofNat 8
    · subst h3
      show parseStringBody ('\\' :: 'b' :: _) = _
      rw [psb_backslash (by decide) (show simpleUnescape 'b' = some (Char.ofNat 8) by decide)]
      simp [ih]
    by_cases h4 : c = '\t'
    · subst h4
      show parseStringBody ('\\' :: 't' :: _) = _
      rw [psb_backslash (by decide) (show simpleUnescape 't' = some '\t' by decide)]
      simp [ih]
    by_cases h5 : c = nl
    · subst h5
      show parseStringBody ('\\' :: 'n' :: _) = _
      rw [psb_backslash (by decide) (show simpleUnescape 'n' = some nl by decide)]
      simp [ih]
    by_cases h6 : c = Char.ofNat 12
    · subst h6
      show parseStringBody ('\\' :: 'f' :: _) = _
      rw [psb_backslash (by decide) (show simpleUnescape 'f' = some (Char.ofNat 12) by decide)]
      simp [ih]
    by_cases h7 : c = Char.ofNat 13
    · subst h7
      show parseStringBody ('\\' :: 'r' :: _) = _
      rw [psb_backslash (by decide) (show simpleUnescape 'r' = some (Char.ofNat 13) by decide)]
      simp [ih]
    by_cases h8 : c.toNat < 32
    · simp only [escapeChar, if_neg h1, if_neg h2, if_neg h3, if_neg h4, if_neg h5, if_neg h6,
        if_neg h7, if_pos h8, List.cons_append, List.nil_append]
      rw [psb_u (show hexVal '0' = some 0 by decide) (show hexVal '0' = some 0 by decide)
        (hexVal_hexDigit (by omega)) (hexVal_hexDigit (by omega)), ih]
      rw [show ((0 * 16 + 0) * 16 + c.toNat / 16) * 16 + c.toNat % 16 = c.toNat by omega,
        Char.ofNat_toNat]
      rfl
    · simp only [escapeChar, if_neg h1, if_neg h2, if_neg h3, if_neg h4, if_neg h5, if_neg h6,
        if_neg h7, if_neg h8, List.cons_append, List.nil_append]
      rw [psb_plain h1 h2, ih]
      rfl

/-! ## Token-level round-trip lemmas

Each token parser begins by skipping whitespace, so it is invariant under a
whitespace prefix (`_ws` lemmas), and consumes exactly the serializer's
output for the corresponding token (`_encode` lemmas). -/

theorem skipWs_skipWs (cs : List Char) : skipWs (skipWs cs) = skipWs cs := by
  induction cs with
  | nil => rfl
  | cons c cs ih =>
    by_cases h : isWsChar c = true
    · simp only [skipWs, h, if_pos]
      exact ih
    · have h' : isWsChar c = false := by simpa using h
      rw [skipWs_cons_not_ws c cs h', skipWs_cons_not_ws c cs h']

theorem parseStringTok_ws {ws : List Char} (cs : List Char)
    (h : ∀ c ∈ ws, isWsChar c = true) :
    parseStringTok (ws ++ cs) = parseStringTok cs := by
  unfold parseStringTok
  rw [skipWs_append_ws cs h]

theorem parseNatTok_ws {ws : List Char} (cs : List Char)
    (h : ∀ c ∈ ws, isWsChar c = true) :
    parseNatTok (ws ++ cs) = parseNatTok cs := by
  unfold parseNatTok
  rw [skipWs_append_ws cs h]

theorem expectChar_ws {ws : List Char} (c : Char) (cs : List Char)
    (h : ∀ c ∈ ws, isWsChar c = true) :
    expectChar c (ws ++ cs) = expectChar c cs := by
  unfold expectChar
  rw [skipWs_append_ws cs h]

theorem parseField_ws {ws : List Char} (key cs : List Char)
    (h : ∀ c ∈ ws, isWsChar c = true) :
    parseField key (ws ++ cs) = parseField key cs := by
  unfold parseField
  rw [parseStringTok_ws cs h]

theorem parseEntryVal_ws {ws : List Char} (cs : List Char)
    (h : ∀ c ∈ ws, isWsChar c = true) :
    parseEntryVal (ws ++ cs) = parseEntryVal cs := by
  unfold parseEntryVal
  rw [expectChar_ws lbrace cs h]

theorem parseEntry_ws {ws : List Char} (cs : List Char)
    (h : ∀ c ∈ ws, isWsChar c = true) :
    parseEntry (ws ++ cs) = parseEntry cs := by
  unfold parseEntry
  rw [parseStringTok_ws cs h]

theorem expectChar_cons {c : Char} (hc : isWsChar c = false) (rest : List Char) :
    expectChar c (c :: rest) = some rest := by
  unfold expectChar
  rw [skipWs_cons_not_ws c rest hc]
  simp

theorem parseStringTok_encode (s rest : List Char) :
    parseStringTok (encodeString s ++ rest) = some (s, rest) := by
  unfold parseStringTok encodeString
  simp only [List.cons_append, List.append_assoc, List.singleton_append]
  rw [skipWs_cons_not_ws '\"' _ (by decide)]
  show (if ('\"' : Char) = '\"' then parseStringBody (s.flatMap escapeChar ++ '\"' :: rest)
    else none) = some (s, rest)
  rw [if_pos rfl]
  exact parseStringBody_encode s rest

theorem parseNatTok_encode {c : Char} (hc : isDigitChar c = false) (n : Nat)
    (rest : List Char) :
    parseNatTok (encodeNat n ++ c :: rest) = some (n, c :: rest) := by
  unfold parseNatTok
  obtain ⟨d, ds, hds⟩ : ∃ d ds, encodeNat n = d :: ds := by
    match h : encodeNat n with
    | [] => exact absurd h (encodeNat_ne_nil n)
    | d :: ds => exact ⟨d, ds, rfl⟩
  have hdsd : ∀ x ∈ encodeNat n, isDigitChar x = true := encodeNat_all_digits n
  have hhead : isWsChar d = false :=
    isWsChar_eq_false_of_digit (hdsd d (by rw [hds]; simp))
  rw [hds, List.cons_append, skipWs_cons_not_ws d _ hhead, ← List.cons_append, ← hds]
  rw [takeDigits_append _ _ hdsd (by simp [hc])]
  rw [hds]
  simp only [← hds]
  rw [digitsToNat_encodeNat]

theorem parseField_encode (key rest : List Char) :
    parseField key (encodeString key ++ ':' :: rest) = some rest := by
  unfold parseField
  rw [parseStringTok_encode key (':' :: rest)]
  show (if key = key then expectChar ':' (':' :: rest) else none) = some rest
  rw [if_pos rfl]
  exact expectChar_cons (by decide) rest

/-! ## Whitespace-cons step lemmas and concrete character facts -/

theorem skipWs_cons_ws {c : Char} (hc : isWsChar c = true) (cs : List Char) :
    skipWs (c :: cs) = skipWs cs := by
  simp only [skipWs, hc, if_pos]

theorem parseStringTok_cons_ws {c : Char} (hc : isWsChar c = true) (cs : List Char) :
    parseStringTok (c :: cs) = parseStringTok cs := by
  unfold parseStringTok
  rw [skipWs_cons_ws hc]

theorem parseNatTok_cons_ws {c : Char} (hc : isWsChar c = true) (cs : List Char) :
    parseNatTok (c :: cs) = parseNatTok cs := by
  unfold parseNatTok
  rw [skipWs_cons_ws hc]

theorem expectChar_cons_ws {c : Char} (hc : isWsChar c = true) (c2 : Char) (cs : List Char) :
    expectChar c2 (c :: cs) = expectChar c2 cs := by
  unfold expectChar
  rw [skipWs_cons_ws hc]

theorem parseField_cons_ws {c : Char} (hc : isWsChar c = true) (key cs : List Char) :
    parseField key (c :: cs) = parseField key cs := by
  unfold parseField
  rw [parseStringTok_cons_ws hc]

theorem isWsChar_space : isWsChar ' ' = true := by decide

theorem isWsChar_nl : isWsChar nl = true := by decide

theorem isWsChar_colon : isWsChar ':' = false := by decide

theorem isWsChar_comma : isWsChar ',' = false := by decide

theorem isWsChar_lbrace : isWsChar lbrace = false := by decide

theorem isWsChar_rbrace : isWsChar rbrace = false := by decide

theorem isWsChar_quote : isWsChar '\"' = false := by decide

theorem isDigitChar_comma : isDigitChar ',' = false := by decide

theorem isDigitChar_nl : isDigitChar nl = false := by decide

theorem string_mk_data (s : String) : String.mk s.data = s := rfl

/-! ## Record and member round-trip -/

theorem parseEntryVal_encode (e : SessionFileEntry) (rest : List Char) :
    parseEntryVal (encodeEntryVal e ++ rest) = some (e, rest) := by
  simp only [parseEntryVal, encodeEntryVal, List.cons_append, List.append_assoc,
    List.nil_append, List.singleton_append]
  simp only [expectChar_cons isWsChar_lbrace, parseField_cons_ws isWsChar_nl,
    parseField_cons_ws isWsChar_space, parseField_encode, parseNatTok_cons_ws isWsChar_space,
    parseNatTok_encode isDigitChar_comma, expectChar_cons isWsChar_comma,
    parseStringTok_cons_ws isWsChar_space, parseStringTok_encode,
    expectChar_cons_ws isWsChar_nl, expectChar_cons_ws isWsChar_space,
    expectChar_cons isWsChar_rbrace, Option.bind_eq_bind, Option.some_bind,
    string_mk_data, Option.pure_def]

theorem parseEntry_encode (k : String) (e : SessionFileEntry) (rest : List Char) :
    parseEntry (encodeEntry k e ++ rest) = some ((k, e), rest) := by
  simp only [parseEntry, encodeEntry, List.cons_append, List.append_assoc,
    List.nil_append, List.singleton_append]
  simp only [parseStringTok_cons_ws isWsChar_space, parseStringTok_encode,
    expectChar_cons isWsChar_colon, expectChar_cons_ws isWsChar_space,
    Option.bind_eq_bind, Option.some_bind, string_mk_data, Option.pure_def]
  rw [show (' ' :: (encodeEntryVal e ++ rest)) = [' '] ++ (encodeEntryVal e ++ rest) from rfl]
  rw [parseEntryVal_ws _ (by simp [isWsChar_space])]
  rw [parseEntryVal_encode]
  simp

/-! ## Member-list and whole-file round-trip -/

theorem insertAll_nil (acc : SessionsFile) : insertAll acc [] = acc := rfl

theorem insertAll_cons (acc : SessionsFile) (k : String) (v : SessionFileEntry)
    (es : SessionsFile) : insertAll acc ((k, v) :: es) = insertAll (setSession acc k v) es := rfl

theorem parseEntry_cons_ws {c : Char} (hc : isWsChar c = true) (cs : List Char) :
    parseEntry (c :: cs) = parseEntry cs := by
  unfold parseEntry
  rw [parseStringTok_cons_ws hc]

theorem parseEntriesAux_cons_ws {c : Char} (hc : isWsChar c = true) (fuel : Nat)
    (acc : SessionsFile) (cs : List Char) :
    parseEntriesAux fuel acc (c :: cs) = parseEntriesAux fuel acc cs := by
  match fuel with
  | 0 => rfl
  | fuel + 1 =>
    simp only [parseEntriesAux]
    rw [parseEntry_cons_ws hc]

theorem encodeEntries_cons (kv : String × SessionFileEntry) (es : SessionsFile) :
    ∃ tail, encodeEntries (kv :: es) = encodeEntry kv.1 kv.2 ++ tail := by
  match es with
  | [] => exact ⟨[], by simp [encodeEntries]⟩
  | kv2 :: es2 =>
    exact ⟨[',', nl] ++ encodeEntries (kv2 :: es2), by simp [encodeEntries]⟩

theorem parseEntriesAux_encode :
    ∀ (entries : SessionsFile) (fuel : Nat) (acc : SessionsFile) (rest : List Char),
      entries ≠ [] → entries.length ≤ fuel →
      parseEntriesAux fuel acc (encodeEntries entries ++ (nl :: rbrace :: rest)) =
        some (insertAll acc entries, rest) := by
  intro entries
  induction entries with
  | nil => intro fuel acc rest hne _; exact absurd rfl hne
  | cons kv es ih =>
    intro fuel acc rest _ hlen
    match fuel, hlen with
    | fuel + 1, hlen2 =>
      match kv with
      | (k, v) =>
        match es with
        | [] =>
          simp only [encodeEntries, parseEntriesAux]
          rw [parseEntry_encode k v (nl :: rbrace :: rest)]
          simp only []
          rw [skipWs_cons_ws isWsChar_nl, skipWs_cons_not_ws rbrace rest isWsChar_rbrace]
          simp only []
          rw [if_neg (show ¬ rbrace = ',' by decide), if_pos trivial]
          rfl
        | kv2 :: es2 =>
          have henc : encodeEntries ((k, v) :: kv2 :: es2) =
              encodeEntry k v ++ (',' :: nl :: encodeEntries (kv2 :: es2)) := by
            simp [encodeEntries]
          rw [henc]
          simp only [parseEntriesAux, List.append_assoc, List.cons_append]
          rw [parseEntry_encode k v
            (',' :: nl :: (encodeEntries (kv2 :: es2) ++ (nl :: rbrace :: rest)))]
          simp only []
          rw [skipWs_cons_not_ws ',' _ isWsChar_comma]
          simp only []
          rw [if_pos trivial]
          rw [parseEntriesAux_cons_ws isWsChar_nl]
          rw [ih fuel (setSession acc k v) rest (by simp) (by simpa using hlen2)]
          rfl

theorem encodeEntry_length_pos (k : String) (e : SessionFileEntry) :
    0 < (encodeEntry k e).length := by
  simp [encodeEntry]

theorem encodeEntries_length_ge (entries : SessionsFile) :
    entries.length ≤ (encodeEntries entries).length := by
  induction entries with
  | nil => simp [encodeEntries]
  | cons kv es ih =>
    match es with
    | [] =>
      have := encodeEntry_length_pos kv.1 kv.2
      simp only [encodeEntries, List.length_cons, List.length_nil]
      omega
    | kv2 :: es2 =>
      have h1 := encodeEntry_length_pos kv.1 kv.2
      simp only [encodeEntries, List.length_append, List.length_cons] at ih ⊢
      omega

theorem setSession_not_mem {m : SessionsFile} {k : String} (v : SessionFileEntry)
    (h : k ∉ sessionKeys m) : setSession m k v = m ++ [(k, v)] := by
  induction m with
  | nil => rfl
  | cons kv rest ih =>
    have hk : kv.1 ≠ k := by
      intro he
      exact h (by simp [sessionKeys, he])
    simp only [setSession, if_neg hk]
    rw [ih (by intro hm; exact h (by simp [sessionKeys] at hm ⊢; exact Or.inr hm))]
    simp

theorem insertAll_fresh :
    ∀ (es : SessionsFile) (acc : SessionsFile),
      (sessionKeys es).Nodup → (∀ k ∈ sessionKeys es, k ∉ sessionKeys acc) →
      insertAll acc es = acc ++ es := by
  intro es
  induction es with
  | nil => intro acc _ _; simp [insertAll_nil]
  | cons kv es2 ih =>
    intro acc hnd hdisj
    match kv with
    | (k, v) =>
      have hnd' : (k :: sessionKeys es2).Nodup := by simpa [sessionKeys] using hnd
      have hnd2 : (sessionKeys es2).Nodup := (List.nodup_cons.mp hnd').2
      have hknotin : k ∉ sessionKeys es2 := (List.nodup_cons.mp hnd').1
      rw [insertAll_cons]
      rw [setSession_not_mem v (hdisj k (by simp [sessionKeys]))]
      have hdisj2 : ∀ k2 ∈ sessionKeys es2, k2 ∉ sessionKeys (acc ++ [(k, v)]) := by
        intro k2 hk2 hmem
        have hsplit : k2 ∈ sessionKeys acc ∨ k2 = k := by
          simpa [sessionKeys] using hmem
        rcases hsplit with h | h
        · refine hdisj k2 ?hm h
          case hm =>
            simp only [sessionKeys, List.map_cons]
            exact List.mem_cons_of_mem _ hk2
        · exact hknotin (h ▸ hk2)
      rw [ih (acc ++ [(k, v)]) hnd2 hdisj2]
      simp

theorem parseSessions_stringify (m : SessionsFile) (hnd : (sessionKeys m).Nodup) :
    parseSessions (stringifySessions m) = some m := by
  match m with
  | [] => decide
  | kv :: es =>
    obtain ⟨tail, htail⟩ := encodeEntries_cons kv es
    have hform : stringifySessions (kv :: es) =
        lbrace :: nl :: (encodeEntries (kv :: es) ++ (nl :: rbrace :: ([] : List Char))) := by
      simp [stringifySessions]
    rw [hform]
    unfold parseSessions
    rw [expectChar_cons isWsChar_lbrace]
    simp only []
    have hskip : ∃ w, skipWs (nl :: (encodeEntries (kv :: es) ++ (nl :: rbrace :: ([] : List Char)))) =
        '\"' :: w := by
      rw [skipWs_cons_ws isWsChar_nl, htail]
      simp only [encodeEntry, encodeString, List.cons_append, List.append_assoc,
        List.nil_append, List.singleton_append]
      rw [skipWs_cons_ws isWsChar_space, skipWs_cons_ws isWsChar_space,
        skipWs_cons_not_ws '\"' _ isWsChar_quote]
      exact ⟨_, rfl⟩
    obtain ⟨w, hw⟩ := hskip
    rw [hw]
    simp only []
    rw [if_neg (by decide)]
    rw [parseEntriesAux_cons_ws isWsChar_nl]
    rw [parseEntriesAux_encode (kv :: es) _ [] [] (by simp) (by
      have h1 := encodeEntries_length_ge (kv :: es)
      simp only [List.length_cons, List.length_append] at *
      omega)]
    simp only []
    rw [insertAll_fresh (kv :: es) [] hnd (by simp [sessionKeys])]
    simp [skipWs]

/-! ## Association-list facts -/

theorem lookup_eq_none_iff (m : SessionsFile) (p : String) :
    lookupSession m p = none ↔ p ∉ sessionKeys m := by
  induction m with
  | nil => simp [lookupSession, sessionKeys]
  | cons kv rest ih =>
    match kv with
    | (k, v) =>
      by_cases h : k = p
      · subst h
        simp [lookupSession, sessionKeys]
      · simp only [lookupSession, if_neg h, sessionKeys, List.map_cons, List.mem_cons]
        rw [ih]
        constructor
        · intro hn hor
          rcases hor with hor | hor
          · exact h hor.symm
          · exact hn hor
        · intro hn hmem
          exact hn (Or.inr hmem)

theorem mem_of_lookup_some {m : SessionsFile} {p : String} {e : SessionFileEntry}
    (h : lookupSession m p = some e) : p ∈ sessionKeys m := by
  by_contra hmem
  rw [← lookup_eq_none_iff] at hmem
  rw [h] at hmem
  exact Option.noConfusion hmem

theorem count_keys_eq_one {m : SessionsFile} {p : String} {e : SessionFileEntry}
    (hnd : (sessionKeys m).Nodup) (h : lookupSession m p = some e) :
    (sessionKeys m).count p = 1 :=
  List.count_eq_one_of_mem hnd (mem_of_lookup_some h)

theorem lookup_setSession_self (m : SessionsFile) (k : String) (v : SessionFileEntry) :
    lookupSession (setSession m k v) k = some v := by
  induction m with
  | nil => simp [setSession, lookupSession]
  | cons kv rest ih =>
    match kv with
    | (k2, v2) =>
      by_cases h : k2 = k
      · subst h
        simp [setSession, lookupSession]
      · simp [setSession, lookupSession, if_neg h, ih]

theorem lookup_deleteSession_self (m : SessionsFile) (p : String) :
    lookupSession (deleteSession m p) p = none := by
  rw [lookup_eq_none_iff]
  intro hmem
  simp only [sessionKeys, deleteSession, List.mem_map] at hmem
  obtain ⟨kv, hkv, hk⟩ := hmem
  rw [List.mem_filter] at hkv
  have := hkv.2
  simp at this
  exact this hk

theorem sessionKeys_setSession_mem {m : SessionsFile} {k : String} (v : SessionFileEntry)
    (h : k ∈ sessionKeys m) : sessionKeys (setSession m k v) = sessionKeys m := by
  induction m with
  | nil => simp [sessionKeys] at h
  | cons kv rest ih =>
    match kv with
    | (k2, v2) =>
      by_cases hk : k2 = k
      · subst hk
        simp [setSession, sessionKeys]
      · have h2 : k ∈ sessionKeys rest := by
          simp only [sessionKeys, List.map_cons, List.mem_cons] at h
          rcases h with h | h
          · exact absurd h.symm hk
          · exact h
        simp only [setSession, if_neg hk, sessionKeys, List.map_cons]
        rw [show List.map Prod.fst (setSession rest k v) = sessionKeys (setSession rest k v)
          from rfl, ih h2]
        rfl

theorem nodup_setSession {m : SessionsFile} (k : String) (v : SessionFileEntry)
    (hnd : (sessionKeys m).Nodup) : (sessionKeys (setSession m k v)).Nodup := by
  by_cases h : k ∈ sessionKeys m
  · rw [sessionKeys_setSession_mem v h]
    exact hnd
  · rw [setSession_not_mem v h]
    simp only [sessionKeys, List.map_append]
    rw [List.nodup_append]
    refine ⟨hnd, by simp, ?_⟩
    intro a ha hb
    simp at hb
    subst hb
    exact h ha

theorem nodup_deleteSession (m : SessionsFile) (p : String)
    (hnd : (sessionKeys m).Nodup) : (sessionKeys (deleteSession m p)).Nodup :=
  List.Nodup.sublist (List.Sublist.map _ (List.filter_sublist m)) hnd

/-! ## Key uniqueness of every parsed registry -/

theorem parseEntriesAux_nodup :
    ∀ (fuel : Nat) (acc : SessionsFile) (cs : List Char) (m : SessionsFile)
      (r : List Char), (sessionKeys acc).Nodup →
      parseEntriesAux fuel acc cs = some (m, r) → (sessionKeys m).Nodup := by
  intro fuel
  induction fuel with
  | zero => intro acc cs m r _ h; exact Option.noConfusion h
  | succ fuel ih =>
    intro acc cs m r hacc h
    simp only [parseEntriesAux] at h
    match h1 : parseEntry cs with
    | none => rw [h1] at h; exact Option.noConfusion h
    | some ((k, v), cs1) =>
      rw [h1] at h
      simp only [] at h
      match h2 : skipWs cs1 with
      | [] => rw [h2] at h; exact Option.noConfusion h
      | c :: rest =>
        rw [h2] at h
        simp only [] at h
        by_cases hc : c = ','
        · rw [if_pos hc] at h
          exact ih (setSession acc k v) rest m r (nodup_setSession k v hacc) h
        · rw [if_neg hc] at h
          by_cases hb : c = rbrace
          · rw [if_pos hb] at h
            have hm : setSession acc k v = m := (Prod.mk.injEq _ _ _ _ ▸ Option.some.inj h).1
            rw [← hm]
            exact nodup_setSession k v hacc
          · rw [if_neg hb] at h
            exact Option.noConfusion h

theorem parseSessions_nodup {cs : List Char} {m : SessionsFile}
    (h : parseSessions cs = some m) : (sessionKeys m).Nodup := by
  unfold parseSessions at h
  match h1 : expectChar lbrace cs with
  | none => rw [h1] at h; exact Option.noConfusion h
  | some cs1 =>
    rw [h1] at h
    simp only [] at h
    match h2 : skipWs cs1 with
    | [] => rw [h2] at h; exact Option.noConfusion h
    | c :: rest =>
      rw [h2] at h
      simp only [] at h
      by_cases hb : c = rbrace
      · rw [if_pos hb] at h
        by_cases he : skipWs rest = []
        · rw [if_pos he] at h
          have : ([] : SessionsFile) = m := Option.some.inj h
          rw [← this]
          simp [sessionKeys]
        · rw [if_neg he] at h
          exact Option.noConfusion h
      · rw [if_neg hb] at h
        match h3 : parseEntriesAux (cs.length + 1) [] cs1 with
        | none => rw [h3] at h; exact Option.noConfusion h
        | some (m1, rest1) =>
          rw [h3] at h
          simp only [] at h
          by_cases he : skipWs rest1 = []
          · rw [if_pos he] at h
            have : m1 = m := Option.some.inj h
            rw [← this]
            exact parseEntriesAux_nodup _ [] cs1 m1 rest1 (by simp [sessionKeys]) h3
          · rw [if_neg he] at h
            exact Option.noConfusion h

theorem loadSessions_nodup (file : Option String) :
    (sessionKeys (loadSessionsFromFile file)).Nodup := by
  match file with
  | none => simp [loadSessionsFromFile, sessionKeys]
  | some content =>
    simp only [loadSessionsFromFile]
    match h : parseSessions content.data with
    | none => simp [sessionKeys]
    | some m => exact parseSessions_nodup h

/-! ## Load after save -/

theorem load_save (m : SessionsFile) (hnd : (sessionKeys m).Nodup) :
    loadSessionsFromFile (saveSessionsToFile m) = m := by
  simp only [loadSessionsFromFile, saveSessionsToFile]
  rw [parseSessions_stringify m hnd]

theorem load_addSession (file : Option String) (p : String) (e : SessionFileEntry) :
    loadSessionsFromFile (addSessionToFile file p e) =
      setSession (loadSessionsFromFile file) p e := by
  unfold addSessionToFile
  exact load_save _ (nodup_setSession p e (loadSessions_nodup file))

theorem load_removeSession (file : Option String) (p : String) :
    loadSessionsFromFile (removeSessionFromFile file p) =
      deleteSession (loadSessionsFromFile file) p := by
  unfold removeSessionFromFile
  exact load_save _ (nodup_deleteSession _ p (loadSessions_nodup file))

/-! ## Port allocation facts -/

theorem allocatePort_ok {m : SessionsFile} {port : Nat}
    (h : allocatePort m = Except.ok port) :
    port ∈ PORT_POOL ∧ ∀ kv ∈ m, kv.2.port ≠ port := by
  unfold allocatePort at h
  match h1 : PORT_POOL.find? (fun port => !(m.any fun s => s.2.port == port)) with
  | none => rw [h1] at h; exact Except.noConfusion h
  | some port2 =>
    rw [h1] at h
    have hp : port2 = port := Except.ok.inj h
    subst hp
    refine ⟨List.mem_of_find?_eq_some h1, ?_⟩
    have hpred := List.find?_some h1
    simp only [Bool.not_eq_true'] at hpred
    rw [List.any_eq_false] at hpred
    intro kv hkv he
    exact hpred kv hkv (by simp [he])

theorem allocatePort_exhausted {m : SessionsFile}
    (h : ∀ port ∈ PORT_POOL, ∃ kv ∈ m, kv.2.port = port) :
    allocatePort m = Except.error noPortsMsg := by
  unfold allocatePort
  have hfind : PORT_POOL.find? (fun port => !(m.any fun s => s.2.port == port)) = none := by
    rw [List.find?_eq_none]
    intro port hport
    obtain ⟨kv, hkv, he⟩ := h port hport
    simp only [Bool.not_eq_true', Bool.not_eq_false]
    rw [List.any_eq_true]
    exact ⟨kv, hkv, by simp [he]⟩
  rw [hfind]

/-! ## Behaviour of `start` and `stop` case by case -/

theorem start_short {file : Option String} {p : String} {e : SessionFileEntry}
    (cfg : MCPServerConfig) (spawn : SpawnOutcome) (now : String)
    (h : lookupSession (loadSessionsFromFile file) p = some e) :
    start file p cfg spawn now = (Except.ok (mkAddress e.port), file) := by
  unfold start
  simp only []
  rw [h]

theorem start_exhausted {file : Option String} {p : String} {msg : String}
    (cfg : MCPServerConfig) (spawn : SpawnOutcome) (now : String)
    (hl : lookupSession (loadSessionsFromFile file) p = none)
    (ha : allocatePort (loadSessionsFromFile file) = Except.error msg) :
    start file p cfg spawn now = (Except.error msg, file) := by
  unfold start
  simp only []
  rw [hl]
  simp only []
  rw [ha]

theorem start_spawn_threw {file : Option String} {p : String} {port : Nat}
    (cfg : MCPServerConfig) (msg now : String)
    (hl : lookupSession (loadSessionsFromFile file) p = none)
    (ha : allocatePort (loadSessionsFromFile file) = Except.ok port) :
    start file p cfg (SpawnOutcome.threw msg) now =
      (Except.error (startFailMsg p msg), file) := by
  unfold start
  simp only []
  rw [hl]
  simp only []
  rw [ha]

theorem start_spawn_noPid {file : Option String} {p : String} {port : Nat}
    (cfg : MCPServerConfig) (now : String)
    (hl : lookupSession (loadSessionsFromFile file) p = none)
    (ha : allocatePort (loadSessionsFromFile file) = Except.ok port) :
    start file p cfg SpawnOutcome.noPid now =
      (Except.error (startFailMsg p spawnFailedMsg), file) := by
  unfold start
  simp only []
  rw [hl]
  simp only []
  rw [ha]

theorem start_success {file : Option String} {p : String} {port : Nat}
    (cfg : MCPServerConfig) (pid : Nat) (now : String)
    (hl : lookupSession (loadSessionsFromFile file) p = none)
    (ha : allocatePort (loadSessionsFromFile file) = Except.ok port) :
    start file p cfg (SpawnOutcome.ok pid) now =
      (Except.ok (mkAddress port), addSessionToFile file p ⟨port, pid, now⟩) := by
  unfold start
  simp only []
  rw [hl]
  simp only []
  rw [ha]

theorem stop_notFound {file : Option String} {p : String} (kill : Nat → KillResult)
    (h : getSessionFromFile file p = none) :
    stop file p kill = (Except.error (notFoundMsg p), file) := by
  unfold stop
  rw [h]

theorem stop_failed {file : Option String} {p : String} {info : SessionFileEntry}
    {msg : String} (kill : Nat → KillResult)
    (h : getSessionFromFile file p = some info)
    (hk : kill info.pid = KillResult.failed msg) :
    stop file p kill = (Except.error (stopFailMsg p msg), file) := by
  unfold stop
  rw [h]
  simp only []
  rw [hk]

theorem stop_delivered {file : Option String} {p : String} {info : SessionFileEntry}
    (kill : Nat → KillResult) (h : getSessionFromFile file p = some info)
    (hk : kill info.pid = KillResult.delivered) :
    stop file p kill = (Except.ok (), removeSessionFromFile file p) := by
  unfold stop
  rw [h]
  simp only []
  rw [hk]

theorem stop_esrch {file : Option String} {p : String} {info : SessionFileEntry}
    (kill : Nat → KillResult) (h : getSessionFromFile file p = some info)
    (hk : kill info.pid = KillResult.esrch) :
    stop file p kill = (Except.ok (), removeSessionFromFile file p) := by
  unfold stop
  rw [h]
  simp only []
  rw [hk]

/-! ## Claims -/

/-- C7: Registry persistence round-trips: saving any mapping of provider
names (with unique keys, as every JavaScript object has) to session records
and loading it back yields the identical entries with the same `port`, `pid`
and `startedAt` values. -/
theorem c7_round_trip (m : SessionsFile) (hnd : (sessionKeys m).Nodup) :
    loadSessionsFromFile (saveSessionsToFile m) = m :=
  load_save m hnd

set_option maxRecDepth 10000 in
theorem c7_round_trip_witness :
    loadSessionsFromFile (saveSessionsToFile
        [("chrome-devtools", ⟨3978, 123, "2024-01-01T00:00:00.000Z"⟩),
         ("postgres", ⟨3979, 456, "2024-01-02T03:04:05.678Z"⟩)]) =
      [("chrome-devtools", ⟨3978, 123, "2024-01-01T00:00:00.000Z"⟩),
       ("postgres", ⟨3979, 456, "2024-01-02T03:04:05.678Z"⟩)] :=
  c7_round_trip _ (by decide)

/-- C5: when the registry has an entry for `p` and signalling the recorded
pid fails for any reason other than the process being absent, `stop` raises
the wrapped hard error and the registry file is unchanged (the throw happens
before the removal). -/
theorem c5_stop_hard_error (file : Option String) (p : String) (e : SessionFileEntry)
    (kill : Nat → KillResult) (msg : String)
    (h : getSessionFromFile file p = some e) (hk : kill e.pid = KillResult.failed msg) :
    stop file p kill = (Except.error (stopFailMsg p msg), file) :=
  stop_failed kill h hk

set_option maxRecDepth 10000 in
theorem c5_stop_hard_error_witness :
    stop (saveSessionsToFile [("browser", ⟨3978, 42, "T"⟩)]) "browser"
        (fun _ => KillResult.failed "EPERM") =
      (Except.error (stopFailMsg "browser" "EPERM"),
       saveSessionsToFile [("browser", ⟨3978, 42, "T"⟩)]) :=
  c5_stop_hard_error _ "browser" ⟨3978, 42, "T"⟩ _ "EPERM" (by decide) rfl

/-- C4: `stop` on a provider whose recorded process no longer exists (signal
delivery reports `ESRCH`) succeeds and removes the registry entry; `stop` on
a provider with no registry entry fails with the `NotFound` error and leaves
the registry unchanged. -/
theorem c4_stop_dead_or_missing :
    (∀ (file : Option String) (p : String) (e : SessionFileEntry) (kill : Nat → KillResult),
       getSessionFromFile file p = some e → kill e.pid = KillResult.esrch →
       stop file p kill = (Except.ok (), removeSessionFromFile file p) ∧
       getSessionFromFile (stop file p kill).2 p = none)
  ∧ (∀ (file : Option String) (p : String) (kill : Nat → KillResult),
       getSessionFromFile file p = none →
       stop file p kill = (Except.error (notFoundMsg p), file)) := by
  constructor
  · intro file p e kill h hk
    have hs := stop_esrch kill h hk
    refine ⟨hs, ?_⟩
    rw [hs]
    show getSessionFromFile (removeSessionFromFile file p) p = none
    unfold getSessionFromFile
    rw [load_removeSession]
    exact lookup_deleteSession_self _ p
  · intro file p kill h
    exact stop_notFound kill h

set_option maxRecDepth 10000 in
theorem c4_stop_dead_or_missing_witness :
    (stop (saveSessionsToFile [("browser", ⟨3978, 42, "T"⟩)]) "browser"
        (fun _ => KillResult.esrch) =
      (Except.ok (),
       removeSessionFromFile (saveSessionsToFile [("browser", ⟨3978, 42, "T"⟩)]) "browser")) ∧
    stop none "ghost" (fun _ => KillResult.delivered) =
      (Except.error (notFoundMsg "ghost"), none) :=
  ⟨(c4_stop_dead_or_missing.1 _ "browser" ⟨3978, 42, "T"⟩ _ (by decide) rfl).1,
   c4_stop_dead_or_missing.2 none "ghost" _ (by decide)⟩

/-- The result component of `start` when the registry loads as empty. -/
theorem start_result_on_empty {file : Option String}
    (hload : loadSessionsFromFile file = []) (p : String) (cfg : MCPServerConfig)
    (spawn : SpawnOutcome) (now : String) :
    (start file p cfg spawn now).1 =
      match spawn with
      | SpawnOutcome.ok _ => Except.ok (mkAddress 3978)
      | SpawnOutcome.noPid => Except.error (startFailMsg p spawnFailedMsg)
      | SpawnOutcome.threw msg => Except.error (startFailMsg p msg) := by
  have hl : lookupSession (loadSessionsFromFile file) p = none := by rw [hload]; rfl
  have ha : allocatePort (loadSessionsFromFile file) = Except.ok 3978 := by rw [hload]; rfl
  match spawn with
  | SpawnOutcome.ok pid => rw [start_success cfg pid now hl ha]
  | SpawnOutcome.noPid => rw [start_spawn_noPid cfg now hl ha]
  | SpawnOutcome.threw msg => rw [start_spawn_threw cfg msg now hl ha]

/-- C8: Registry load is fail-soft: a missing or unreadable file and a file
whose content fails to parse all load as the empty mapping; no read or parse
error propagates, and every public operation on such a file behaves exactly
as on an absent registry (`start` proceeds from empty, `stop` fails only with
its own `NotFound`, `list` is empty, `stopAll` stops nothing and reports no
failures). -/
theorem c8_load_fail_soft :
    loadSessionsFromFile none = []
  ∧ (∀ s : String, parseSessions s.data = none → loadSessionsFromFile (some s) = [])
  ∧ (∀ (s : String) (p : String) (cfg : MCPServerConfig) (spawn : SpawnOutcome)
       (now : String), parseSessions s.data = none →
       (start (some s) p cfg spawn now).1 = (start none p cfg spawn now).1)
  ∧ (∀ (s : String) (p : String) (kill : Nat → KillResult), parseSessions s.data = none →
       (stop (some s) p kill).1 = (stop none p kill).1 ∧
       (stop (some s) p kill).1 = Except.error (notFoundMsg p))
  ∧ (∀ (s : String) (getTime : String → Int) (now : Int), parseSessions s.data = none →
       list (some s) getTime now = [])
  ∧ (∀ (s : String) (kill : Nat → KillResult), parseSessions s.data = none →
       stopAll (some s) kill = (some s, [])) := by
  have hcorrupt : ∀ s : String, parseSessions s.data = none →
      loadSessionsFromFile (some s) = [] := by
    intro s hp
    simp only [loadSessionsFromFile]
    rw [hp]
  refine ⟨rfl, hcorrupt, ?_, ?_, ?_, ?_⟩
  · intro s p cfg spawn now hp
    rw [start_result_on_empty (hcorrupt s hp) p cfg spawn now,
      start_result_on_empty (show loadSessionsFromFile none = [] from rfl) p cfg spawn now]
  · intro s p kill hp
    have h1 : getSessionFromFile (some s) p = none := by
      unfold getSessionFromFile
      rw [hcorrupt s hp]
      rfl
    rw [stop_notFound kill h1, stop_notFound kill (by rfl)]
    exact ⟨rfl, rfl⟩
  · intro s getTime now hp
    unfold list
    rw [hcorrupt s hp]
    rfl
  · intro s kill hp
    unfold stopAll
    rw [hcorrupt s hp]
    rfl

theorem c8_load_fail_soft_witness :
    loadSessionsFromFile (some "totally not json") = [] ∧
    (stop (some "totally not json") "browser" (fun _ => KillResult.delivered)).1 =
      Except.error (notFoundMsg "browser") ∧
    list (some "totally not json") (fun _ => 0) 65000 = [] ∧
    stopAll (some "totally not json") (fun _ => KillResult.delivered) =
      (some "totally not json", []) :=
  ⟨c8_load_fail_soft.2.1 _ (by decide),
   (c8_load_fail_soft.2.2.2.1 _ "browser" _ (by decide)).2,
   c8_load_fail_soft.2.2.2.2.1 _ _ 65000 (by decide),
   c8_load_fail_soft.2.2.2.2.2 _ _ (by decide)⟩

/-- C1: `start` is idempotent on the registry: whenever an entry for `p`
exists (alive or stale — the spawn oracle is arbitrary and unused), `start`
returns `http://localhost:{port}` built from the recorded port and leaves the
file untouched; hence two `start`s in a row without an intervening `stop`
return the same address and leave exactly one registry entry for `p`. -/
theorem c1_start_idempotent :
    (∀ (file : Option String) (p : String) (cfg : MCPServerConfig) (e : SessionFileEntry)
       (spawn : SpawnOutcome) (now : String),
       lookupSession (loadSessionsFromFile file) p = some e →
       start file p cfg spawn now = (Except.ok (mkAddress e.port), file))
  ∧ (∀ (file file2 : Option String) (p : String) (cfg cfg2 : MCPServerConfig)
       (spawn spawn2 : SpawnOutcome) (now now2 : String) (addr : String),
       start file p cfg spawn now = (Except.ok addr, file2) →
       start file2 p cfg2 spawn2 now2 = (Except.ok addr, file2) ∧
       (sessionKeys (loadSessionsFromFile file2)).count p = 1) := by
  have hshort : ∀ (file : Option String) (p : String) (cfg : MCPServerConfig)
      (e : SessionFileEntry) (spawn : SpawnOutcome) (now : String),
      lookupSession (loadSessionsFromFile file) p = some e →
      start file p cfg spawn now = (Except.ok (mkAddress e.port), file) :=
    fun file p cfg e spawn now h => start_short cfg spawn now h
  refine ⟨hshort, ?_⟩
  intro file file2 p cfg cfg2 spawn spawn2 now now2 addr hstart
  match hl : lookupSession (loadSessionsFromFile file) p with
  | some e =>
    rw [hshort file p cfg e spawn now hl] at hstart
    have haddr : mkAddress e.port = addr := Except.ok.inj (congrArg Prod.fst hstart)
    have hf : file = file2 := congrArg Prod.snd hstart
    subst hf
    constructor
    · rw [hshort file p cfg2 e spawn2 now2 hl, haddr]
    · exact count_keys_eq_one (loadSessions_nodup file) hl
  | none =>
    match halloc : allocatePort (loadSessionsFromFile file) with
    | Except.error msg =>
      rw [start_exhausted cfg spawn now hl halloc] at hstart
      exact absurd (congrArg Prod.fst hstart) (by simp)
    | Except.ok port =>
      match spawn with
      | SpawnOutcome.threw msg =>
        rw [start_spawn_threw cfg msg now hl halloc] at hstart
        exact absurd (congrArg Prod.fst hstart) (by simp)
      | SpawnOutcome.noPid =>
        rw [start_spawn_noPid cfg now hl halloc] at hstart
        exact absurd (congrArg Prod.fst hstart) (by simp)
      | SpawnOutcome.ok pid =>
        rw [start_success cfg pid now hl halloc] at hstart
        have haddr : mkAddress port = addr := Except.ok.inj (congrArg Prod.fst hstart)
        have hf : addSessionToFile file p ⟨port, pid, now⟩ = file2 := congrArg Prod.snd hstart
        have hl2 : lookupSession (loadSessionsFromFile file2) p = some ⟨port, pid, now⟩ := by
          rw [← hf, load_addSession]
          exact lookup_setSession_self _ p _
        constructor
        · rw [hshort file2 p cfg2 ⟨port, pid, now⟩ spawn2 now2 hl2, haddr]
        · exact count_keys_eq_one (loadSessions_nodup file2) hl2

set_option maxRecDepth 10000 in
theorem c1_start_idempotent_witness :
    start (saveSessionsToFile [("browser", ⟨3980, 7, "T"⟩)]) "browser"
        ⟨"npx", [], [], none⟩ SpawnOutcome.noPid "T2" =
      (Except.ok (mkAddress 3980), saveSessionsToFile [("browser", ⟨3980, 7, "T"⟩)]) ∧
    (sessionKeys (loadSessionsFromFile
        (saveSessionsToFile [("browser", ⟨3980, 7, "T"⟩)]))).count "browser" = 1 := by
  have h1 := c1_start_idempotent.1 (saveSessionsToFile [("browser", ⟨3980, 7, "T"⟩)])
    "browser" ⟨"npx", [], [], none⟩ ⟨3980, 7, "T"⟩ SpawnOutcome.noPid "T2" (by decide)
  exact ⟨h1, (c1_start_idempotent.2 _ _ "browser" ⟨"npx", [], [], none⟩ ⟨"npx", [], [], none⟩
    SpawnOutcome.noPid SpawnOutcome.noPid "T2" "T3" (mkAddress 3980) h1).2⟩

/-- C2 (amended): when the registry has no entry for `p` and every pool port
is recorded by some session, `start` fails with the fixed pool-exhaustion
error (`ResourceExhausted`) and the registry file is unchanged; the message
states the cause and a recovery action but — thrown outside `start`'s try
block — does not name the provider. -/
theorem c2_pool_exhausted (file : Option String) (p : String) (cfg : MCPServerConfig)
    (spawn : SpawnOutcome) (now : String)
    (hl : lookupSession (loadSessionsFromFile file) p = none)
    (hfull : ∀ port ∈ PORT_POOL, ∃ kv ∈ loadSessionsFromFile file, kv.2.port = port) :
    start file p cfg spawn now = (Except.error noPortsMsg, file) :=
  start_exhausted cfg spawn now hl (allocatePort_exhausted hfull)

set_option maxRecDepth 60000 in
theorem c2_pool_exhausted_witness :
    start (saveSessionsToFile
        [("a", ⟨3978, 1, "T"⟩), ("b", ⟨3979, 2, "T"⟩), ("c", ⟨3980, 3, "T"⟩),
         ("d", ⟨3981, 4, "T"⟩), ("e", ⟨3982, 5, "T"⟩)]) "github"
        ⟨"npx", [], [], none⟩ (SpawnOutcome.ok 99) "T2" =
      (Except.error noPortsMsg,
       saveSessionsToFile
        [("a", ⟨3978, 1, "T"⟩), ("b", ⟨3979, 2, "T"⟩), ("c", ⟨3980, 3, "T"⟩),
         ("d", ⟨3981, 4, "T"⟩), ("e", ⟨3982, 5, "T"⟩)]) :=
  c2_pool_exhausted _ "github" ⟨"npx", [], [], none⟩ (SpawnOutcome.ok 99) "T2"
    (by decide) (by decide)

set_option maxRecDepth 60000 in
/-- C2, as stated, is false on the code: with the pool fully occupied the
thrown error is the fixed pool-exhaustion message, and that message does not
contain the provider name (here "github") — the allocation failure is thrown
before `start`'s try block, so nothing wraps it with the name. -/
theorem c2_counterexample :
    start (saveSessionsToFile
        [("a", ⟨3978, 1, "T"⟩), ("b", ⟨3979, 2, "T"⟩), ("c", ⟨3980, 3, "T"⟩),
         ("d", ⟨3981, 4, "T"⟩), ("e", ⟨3982, 5, "T"⟩)]) "github"
        ⟨"npx", [], [], none⟩ (SpawnOutcome.ok 99) "T2" =
      (Except.error noPortsMsg,
       saveSessionsToFile
        [("a", ⟨3978, 1, "T"⟩), ("b", ⟨3979, 2, "T"⟩), ("c", ⟨3980, 3, "T"⟩),
         ("d", ⟨3981, 4, "T"⟩), ("e", ⟨3982, 5, "T"⟩)]) ∧
    containsSubstring "github" noPortsMsg = false := by
  constructor
  · rfl
  · rfl

/-- C6: `stopAll` over a three-entry registry where signalling the second
entry's process fails: the first and third stops succeed and their entries
are removed, the second entry survives, and exactly one failure (the wrapped
error for the second provider) is reported — the batch is not aborted. -/
theorem c6_stopAll_partial_failure (file : Option String) (a b c : String)
    (ea eb ec : SessionFileEntry) (kill : Nat → KillResult) (msg : String)
    (hload : loadSessionsFromFile file = [(a, ea), (b, eb), (c, ec)])
    (hab : a ≠ b) (hac : a ≠ c) (hbc : b ≠ c)
    (hka : kill ea.pid = KillResult.delivered)
    (hkb : kill eb.pid = KillResult.failed msg)
    (hkc : kill ec.pid = KillResult.delivered) :
    loadSessionsFromFile (stopAll file kill).1 = [(b, eb)] ∧
    (stopAll file kill).2 = [(b, stopFailMsg b msg)] := by
  have hga : getSessionFromFile file a = some ea := by
    unfold getSessionFromFile
    rw [hload]
    simp [lookupSession]
  have hstopa := stop_delivered kill hga hka
  have hload1 : loadSessionsFromFile (removeSessionFromFile file a) = [(b, eb), (c, ec)] := by
    rw [load_removeSession, hload]
    simp [deleteSession, List.filter, Ne.symm hab, Ne.symm hac]
  have hgb : getSessionFromFile (removeSessionFromFile file a) b = some eb := by
    unfold getSessionFromFile
    rw [hload1]
    simp [lookupSession]
  have hstopb := stop_failed kill hgb hkb
  have hgc : getSessionFromFile (removeSessionFromFile file a) c = some ec := by
    unfold getSessionFromFile
    rw [hload1]
    simp [lookupSession, if_neg hbc]
  have hstopc := stop_delivered kill hgc hkc
  have hload2 : loadSessionsFromFile
      (removeSessionFromFile (removeSessionFromFile file a) c) = [(b, eb)] := by
    rw [load_removeSession, hload1]
    simp [deleteSession, List.filter, hbc]
  have hkeys : sessionKeys (loadSessionsFromFile file) = [a, b, c] := by
    rw [hload]
    rfl
  unfold stopAll
  rw [hkeys]
  simp only [stopAllGo]
  rw [hstopa]
  simp only []
  rw [hstopb]
  simp only []
  rw [hstopc]
  simp only []
  exact ⟨hload2, trivial⟩

set_option maxRecDepth 60000 in
theorem c6_stopAll_partial_failure_witness :
    loadSessionsFromFile (stopAll (saveSessionsToFile
        [("a", ⟨3978, 1, "T"⟩), ("b", ⟨3979, 2, "T"⟩), ("c", ⟨3980, 3, "T"⟩)])
        (fun pid => if pid = 2 then KillResult.failed "EPERM" else KillResult.delivered)).1 =
      [("b", ⟨3979, 2, "T"⟩)] ∧
    (stopAll (saveSessionsToFile
        [("a", ⟨3978, 1, "T"⟩), ("b", ⟨3979, 2, "T"⟩), ("c", ⟨3980, 3, "T"⟩)])
        (fun pid => if pid = 2 then KillResult.failed "EPERM" else KillResult.delivered)).2 =
      [("b", stopFailMsg "b" "EPERM")] :=
  c6_stopAll_partial_failure _ "a" "b" "c" ⟨3978, 1, "T"⟩ ⟨3979, 2, "T"⟩ ⟨3980, 3, "T"⟩
    _ "EPERM" (by decide) (by decide) (by decide) (by decide) rfl rfl rfl

/-! ## Port-uniqueness preservation (C3) -/

theorem delete_preserves_portsUnique {m : SessionsFile} (p : String)
    (h : portsUnique m) : portsUnique (deleteSession m p) :=
  List.Nodup.sublist (List.Sublist.map _ (List.filter_sublist m)) h

theorem stop_preserves_portsUnique (file : Option String) (p : String)
    (kill : Nat → KillResult) (h : portsUnique (loadSessionsFromFile file)) :
    portsUnique (loadSessionsFromFile (stop file p kill).2) := by
  match hg : getSessionFromFile file p with
  | none =>
    rw [stop_notFound kill hg]
    exact h
  | some info =>
    match hk : kill info.pid with
    | KillResult.failed msg =>
      rw [stop_failed kill hg hk]
      exact h
    | KillResult.delivered =>
      rw [stop_delivered kill hg hk]
      show portsUnique (loadSessionsFromFile (removeSessionFromFile file p))
      rw [load_removeSession]
      exact delete_preserves_portsUnique p h
    | KillResult.esrch =>
      rw [stop_esrch kill hg hk]
      show portsUnique (loadSessionsFromFile (removeSessionFromFile file p))
      rw [load_removeSession]
      exact delete_preserves_portsUnique p h

theorem start_preserves_portsUnique (file : Option String) (p : String)
    (cfg : MCPServerConfig) (spawn : SpawnOutcome) (now : String)
    (h : portsUnique (loadSessionsFromFile file)) :
    portsUnique (loadSessionsFromFile (start file p cfg spawn now).2) := by
  match hl : lookupSession (loadSessionsFromFile file) p with
  | some e =>
    rw [start_short cfg spawn now hl]
    exact h
  | none =>
    match halloc : allocatePort (loadSessionsFromFile file) with
    | Except.error msg =>
      rw [start_exhausted cfg spawn now hl halloc]
      exact h
    | Except.ok port =>
      match spawn with
      | SpawnOutcome.threw msg =>
        rw [start_spawn_threw cfg msg now hl halloc]
        exact h
      | SpawnOutcome.noPid =>
        rw [start_spawn_noPid cfg now hl halloc]
        exact h
      | SpawnOutcome.ok pid =>
        rw [start_success cfg pid now hl halloc]
        show portsUnique (loadSessionsFromFile
          (addSessionToFile file p ⟨port, pid, now⟩))
        rw [load_addSession]
        have hfree := (allocatePort_ok halloc).2
        have hnotmem : p ∉ sessionKeys (loadSessionsFromFile file) :=
          (lookup_eq_none_iff _ p).mp hl
        rw [setSession_not_mem _ hnotmem]
        unfold portsUnique
        rw [List.map_append]
        rw [List.nodup_append]
        refine ⟨h, by simp, ?_⟩
        intro x hx hx2
        simp only [List.map_cons, List.map_nil, List.mem_singleton] at hx2
        subst hx2
        rw [List.mem_map] at hx
        obtain ⟨kv, hkv, he⟩ := hx
        exact hfree kv hkv he

theorem stopAllGo_preserves_portsUnique (kill : Nat → KillResult) :
    ∀ (names : List String) (file : Option String),
      portsUnique (loadSessionsFromFile file) →
      portsUnique (loadSessionsFromFile (stopAllGo kill names file).1) := by
  intro names
  induction names with
  | nil => intro file h; exact h
  | cons n ns ih =>
    intro file h
    simp only [stopAllGo]
    match hstop : stop file n kill with
    | (Except.ok u, file2) =>
      have h2 : portsUnique (loadSessionsFromFile file2) := by
        have hp := stop_preserves_portsUnique file n kill h
        rw [hstop] at hp
        exact hp
      exact ih file2 h2
    | (Except.error e, file2) =>
      have h2 : portsUnique (loadSessionsFromFile file2) := by
        have hp := stop_preserves_portsUnique file n kill h
        rw [hstop] at hp
        exact hp
      simp only []
      exact ih file2 h2

theorem step_preserves_portsUnique {f f2 : Option String} (hstep : ManagerStep f f2)
    (h : portsUnique (loadSessionsFromFile f)) :
    portsUnique (loadSessionsFromFile f2) := by
  cases hstep with
  | startStep p cfg spawn now => exact start_preserves_portsUnique f p cfg spawn now h
  | stopStep p kill => exact stop_preserves_portsUnique f p kill h
  | stopAllStep kill =>
    unfold stopAll
    exact stopAllGo_preserves_portsUnique kill _ f h

/-- C3: port uniqueness is an invariant of every reachable registry state:
from any port-unique (in particular, empty) registry file, any sequence of
`start`, `stop` and `stopAll` operations yields a registry in which no two
session records share a port. -/
theorem c3_port_uniqueness (f f2 : Option String)
    (hsteps : Relation.ReflTransGen ManagerStep f f2)
    (h : portsUnique (loadSessionsFromFile f)) :
    portsUnique (loadSessionsFromFile f2) := by
  induction hsteps with
  | refl => exact h
  | tail _ hstep ih => exact step_preserves_portsUnique hstep ih

theorem c3_port_uniqueness_witness :
    portsUnique (loadSessionsFromFile
      (start none "browser" ⟨"npx", [], [], none⟩ (SpawnOutcome.ok 7) "T").2) :=
  c3_port_uniqueness none _
    (Relation.ReflTransGen.single
      (ManagerStep.startStep none "browser" ⟨"npx", [], [], none⟩ (SpawnOutcome.ok 7) "T"))
    List.nodup_nil

/-! ## Uptime formatting (C9) -/

theorem formatUptime_min {ms : Int} (h0 : 0 ≤ ms) (h60 : 60 ≤ ms / 1000) :
    formatUptime ms =
      Int.repr (ms / 1000 / 60) ++ "m " ++ Int.repr (ms / 1000 % 60) ++ "s" := by
  unfold formatUptime
  simp only []
  rw [Int.fdiv_eq_ediv ms (by norm_num), Int.fdiv_eq_ediv _ (by norm_num)]
  rw [Int.tmod_eq_emod (Int.ediv_nonneg h0 (by norm_num)) (by norm_num)]
  rw [if_pos (by omega)]

theorem formatUptime_sec {ms : Int} (h0 : 0 ≤ ms) (h60 : ms / 1000 < 60) :
    formatUptime ms = Int.repr (ms / 1000) ++ "s" := by
  unfold formatUptime
  simp only []
  rw [Int.fdiv_eq_ediv ms (by norm_num), Int.fdiv_eq_ediv _ (by norm_num)]
  rw [if_neg (by omega)]

/-- C9: `list()` renders uptime by minute/second decomposition: at 65 elapsed
seconds the row reads "1m 5s", at 45 elapsed seconds "45s"; in general an
uptime of 60 seconds or more renders as `{m}m {s}s` with `s` the total
seconds modulo 60, and an uptime under 60 seconds as `{s}s`. -/
theorem c9_uptime_format (file : Option String) (getTime : String → Int) (now : Int)
    (name : String) (s : SessionFileEntry)
    (hmem : (name, s) ∈ loadSessionsFromFile file) :
    (now - getTime s.startedAt = 65000 →
       (⟨name, s.port, "1m 5s", s.pid⟩ : SessionListing) ∈ list file getTime now)
  ∧ (now - getTime s.startedAt = 45000 →
       (⟨name, s.port, "45s", s.pid⟩ : SessionListing) ∈ list file getTime now)
  ∧ (∀ ms : Int, now - getTime s.startedAt = ms → 0 ≤ ms → 60 ≤ ms / 1000 →
       (⟨name, s.port,
          Int.repr (ms / 1000 / 60) ++ "m " ++ Int.repr (ms / 1000 % 60) ++ "s",
          s.pid⟩ : SessionListing) ∈ list file getTime now)
  ∧ (∀ ms : Int, now - getTime s.startedAt = ms → 0 ≤ ms → ms / 1000 < 60 →
       (⟨name, s.port, Int.repr (ms / 1000) ++ "s", s.pid⟩ : SessionListing) ∈
         list file getTime now) := by
  have hrow : ∀ u : String, u = formatUptime (now - getTime s.startedAt) →
      (⟨name, s.port, u, s.pid⟩ : SessionListing) ∈ list file getTime now := by
    intro u hu
    subst hu
    unfold list
    exact List.mem_map.mpr ⟨(name, s), hmem, rfl⟩
  refine ⟨?_, ?_, ?_, ?_⟩
  · intro h
    apply hrow
    rw [h]
    decide
  · intro h
    apply hrow
    rw [h]
    decide
  · intro ms h h0 h60
    apply hrow
    rw [h, formatUptime_min h0 h60]
  · intro ms h h0 h60
    apply hrow
    rw [h, formatUptime_sec h0 h60]

set_option maxRecDepth 10000 in
theorem c9_uptime_format_witness :
    (⟨"browser", 3978, "1m 5s", 7⟩ : SessionListing) ∈
      list (saveSessionsToFile [("browser", ⟨3978, 7, "2024-01-01T00:00:00.000Z"⟩)])
        (fun _ => 1000) 66000 ∧
    (⟨"browser", 3978, "45s", 7⟩ : SessionListing) ∈
      list (saveSessionsToFile [("browser", ⟨3978, 7, "2024-01-01T00:00:00.000Z"⟩)])
        (fun _ => 1000) 46000 :=
  ⟨(c9_uptime_format _ (fun _ => 1000) 66000 "browser" ⟨3978, 7, "2024-01-01T00:00:00.000Z"⟩
      (by decide)).1 rfl,
   (c9_uptime_format _ (fun _ => 1000) 46000 "browser" ⟨3978, 7, "2024-01-01T00:00:00.000Z"⟩
      (by decide)).2.1 rfl⟩

/-- C10 (amended): the tool endpoint never lets an invocation failure
propagate: a rejected `callTool` always yields status 500 with
`{success: false, error: m}` where `m` is exactly the failure's message
(hence non-empty whenever that message is non-empty, though the handler
itself cannot rule out an empty message); a resolved call yields
`200 {success: true, result}`. -/
theorem c10_tool_error_envelope :
    ∀ (P R : Type) (emptyParams : P) (callTool : String → P → Except String R)
      (toolName : String) (body : Option P),
      (∀ msg, callTool toolName (body.getD emptyParams) = Except.error msg →
        toolCallRoute emptyParams callTool toolName body =
          { status := 500, success := false, result := none, error := some msg } ∧
        (msg ≠ "" → ∃ m, m ≠ "" ∧
          (toolCallRoute emptyParams callTool toolName body).error = some m))
    ∧ (∀ r, callTool toolName (body.getD emptyParams) = Except.ok r →
        toolCallRoute emptyParams callTool toolName body =
          { status := 200, success := true, result := some r, error := none }) := by
  intro P R emptyParams callTool toolName body
  constructor
  · intro msg h
    have henv : toolCallRoute emptyParams callTool toolName body =
        { status := 500, success := false, result := none, error := some msg } := by
      unfold toolCallRoute
      simp only []
      rw [h]
    exact ⟨henv, fun hne => ⟨msg, hne, by rw [henv]⟩⟩
  · intro r h
    unfold toolCallRoute
    simp only []
    rw [h]

theorem c10_tool_error_envelope_witness :
    @toolCallRoute Unit Nat () (fun _ _ => Except.error "boom") "navigate" none =
      { status := 500, success := false, result := none, error := some "boom" } ∧
    @toolCallRoute Unit Nat () (fun _ _ => Except.ok 7) "navigate" none =
      { status := 200, success := true, result := some 7, error := none } :=
  ⟨((c10_tool_error_envelope Unit Nat () (fun _ _ => Except.error "boom") "navigate"
      none).1 "boom" rfl).1,
   (c10_tool_error_envelope Unit Nat () (fun _ _ => Except.ok 7) "navigate" none).2 7 rfl⟩

/-- C10 as stated is false on the code: a failing invocation whose error
message is the empty string produces the envelope `{success: false,
error: ""}` — the error field is an empty, not a non-empty, string (status
500 and the JSON body are still produced). -/
theorem c10_counterexample :
    (@toolCallRoute Unit Unit () (fun _ _ => Except.error "") "navigate" none).status = 500 ∧
    (@toolCallRoute Unit Unit () (fun _ _ => Except.error "") "navigate" none).success = false ∧
    (@toolCallRoute Unit Unit () (fun _ _ => Except.error "") "navigate" none).error = some "" ∧
    ("" : String).length = 0 :=
  ⟨rfl, rfl, rfl, rfl⟩

end MCPCatalogue
